import Mathlib

/-!
# Verification of `eslint-plugin-forbid-log-strings`

A shallow embedding of `src/lib/rules/forbid-log-strings.js` together with
proofs about its pattern compiler, logic combinator, configuration
validator and call-site resolver.

The rule's matching is built on JavaScript `RegExp`.  We embed the fragment
of `RegExp` semantics that the rule actually exercises:

* the shape-detection regex `^\/(.*)\/([gimuydsv]*)$` from `getMatch`
  (modelled directly as `getMatch`/`splitAtLastSlash`, including the fact
  that `.` does not cross line terminators);
* matchers assembled from literal characters, the `.` wildcard and the
  `\b` word-boundary assertion, under the `i` (case-insensitive, modelled
  on ASCII case folding) and `s` (dot-all) flags as used by
  `RegExp.prototype.test` (unanchored search).

Characters that carry a special regex meaning in JavaScript other than
`.` and the `\b` escape are parsed as literals by this engine; theorems
about the implicit word branch therefore restrict pattern strings to
characters with no special meaning (`isPlainChar`).
-/

namespace ForbidLogStrings

/-- JavaScript word character (`\w` = `[A-Za-z0-9_]`), used by the `\b`
word-boundary assertion. -/
def isWordChar (c : Char) : Bool :=
  c.isAlpha || c.isDigit || c == '_'

/-- Word-character test on an optional character; positions outside the
text count as non-word. -/
def isWordOpt : Option Char → Bool
  | some c => isWordChar c
  | none => false

/-- JS `\b` at position `i` of `text`: the word-character status differs
between the character before `i` and the character at `i`. -/
def boundaryAt (text : List Char) (i : Nat) : Bool :=
  isWordOpt (if i = 0 then none else text[i - 1]?) != isWordOpt text[i]?

/-- JavaScript line terminators, which `.` does not match (without `s`). -/
def isLineTerminator (c : Char) : Bool :=
  c == '\n' || c == '\r' || c == '\u2028' || c == '\u2029'

/-- One element of a parsed regex source: a literal character, the `.`
wildcard, or the `\b` word-boundary assertion. -/
inductive Ratom where
  | lit (c : Char)
  | anyChar
  | wordB
deriving DecidableEq

/-- Parse a regex source string into atoms.  `\b` and `.` are the only
special constructs the rule's own regexes use; every other character is
taken as a literal (faithful to JS for characters in `isPlainChar`). -/
def parseRegex (l : List Char) : List Ratom :=
  match l with
  | [] => []
  | a :: b :: rest =>
      if a = '\\' && b = 'b' then Ratom.wordB :: parseRegex rest
      else if a = '.' then Ratom.anyChar :: parseRegex (b :: rest)
      else Ratom.lit a :: parseRegex (b :: rest)
  | [a] => if a = '.' then [Ratom.anyChar] else [Ratom.lit a]

/-- Character comparison, case-insensitively when `ci` is set (ASCII case
folding, as the rule only feeds ASCII patterns through the `i` flag). -/
def charMatches (ci : Bool) (c d : Char) : Bool :=
  if ci then c.toLower == d.toLower else c == d

/-- Run a parsed regex at position `i` of `text` (anchored at `i`). -/
def matchFrom (ci dotAll : Bool) (text : List Char) : List Ratom → Nat → Bool
  | [], _ => true
  | Ratom.wordB :: rest, i => boundaryAt text i && matchFrom ci dotAll text rest i
  | Ratom.anyChar :: rest, i =>
      match text[i]? with
      | some c => (dotAll || !isLineTerminator c) && matchFrom ci dotAll text rest (i + 1)
      | none => false
  | Ratom.lit c :: rest, i =>
      match text[i]? with
      | some d => charMatches ci c d && matchFrom ci dotAll text rest (i + 1)
      | none => false

/-- A compiled `RegExp` value: source and flags, as built by `new
RegExp(source, flags)` in `parsePattern`. -/
structure RegExp where
  source : String
  flags : String
deriving DecidableEq

/-- `RegExp.prototype.test`: unanchored search for a match of the parsed
source anywhere in the string, honouring the `i` and `s` flags. -/
def RegExp.test (r : RegExp) (s : String) : Bool :=
  let ci := r.flags.toList.contains 'i'
  let dotAll := r.flags.toList.contains 's'
  let atoms := parseRegex r.source.toList
  (List.range (s.toList.length + 1)).any fun i => matchFrom ci dotAll s.toList atoms i

/-- The flag characters accepted by `getMatch`'s shape regex
(`[gimuydsv]`). -/
def isFlagChar (c : Char) : Bool :=
  c == 'g' || c == 'i' || c == 'm' || c == 'u' || c == 'y' || c == 'd' || c == 's' || c == 'v'

/-- Semantics of matching `(.*)\/([gimuydsv]*)$` against a character list:
split it as `body ++ '/' :: flags` where `flags` holds only flag
characters and `body` holds no line terminator (JS `.` does not cross line
terminators).  The greedy `(.*)` makes the split use the rightmost
eligible `/`; the recursion prefers a split found deeper in the list. -/
def splitAtLastSlash : List Char → Option (List Char × List Char)
  | [] => none
  | c :: rest =>
      if isLineTerminator c then none
      else
        match splitAtLastSlash rest with
        | some (b, f) => some (c :: b, f)
        | none => if c = '/' && rest.all isFlagChar then some ([], rest) else none

/-- Semantics of `pattern.match(/^\/(.*)\/([gimuydsv]*)$/)` on the
character list of the pattern. -/
def getMatchAux : List Char → Option (List Char × List Char)
  | '/' :: rest => splitAtLastSlash rest
  | _ => none

/-- `getMatch` from the source: `some (body, flags)` when the pattern has
the explicit `/body/flags` shape, `none` otherwise. -/
def getMatch (pattern : String) : Option (String × String) :=
  (getMatchAux pattern.toList).map fun bf => (String.mk bf.1, String.mk bf.2)

/-- `isRegex` from the source. -/
def isRegex (pattern : String) : Bool :=
  (getMatch pattern).isSome

/-- `parsePattern` from the source: explicit `/body/flags` patterns become
`new RegExp(body, flags)`; anything else becomes the implicit
case-insensitive whole-word matcher `new RegExp("\b" ++ pattern ++ "\b", "i")`. -/
def parsePattern (pattern : String) : RegExp :=
  match getMatch pattern with
  | some bf => RegExp.mk bf.1 bf.2
  | none => RegExp.mk ("\\b" ++ pattern ++ "\\b") "i"

/-- One rule configuration object.  `none` models an absent (JS
`undefined`) optional property; note that `some []` (an empty array) is
truthy in JS and is therefore distinct from `none`. -/
structure Config where
  forbiddenPatterns : List String
  logic : Option String
  excludeLevels : Option (List String)
  customLoggers : Option (List String)
deriving DecidableEq

/-- The two configuration-error message identifiers. -/
inductive ConfigDiag where
  | missingLogic
  | unnecessaryLogic
deriving DecidableEq

/-- `validateConfig` from the source: report `missingLogic` when there is
more than one pattern and no `logic`, else report `unnecessaryLogic` when
there is exactly one pattern and a `logic`, else report nothing. -/
def validateConfig (config : Config) : Option ConfigDiag :=
  if config.forbiddenPatterns.length > 1 ∧ config.logic = none then
    some ConfigDiag.missingLogic
  else if config.forbiddenPatterns.length = 1 ∧ config.logic ≠ none then
    some ConfigDiag.unnecessaryLogic
  else none

/-- The `Program()` visitor: every configuration is validated, in order,
independently of the others (one optional diagnostic per configuration). -/
def validationDiags (configurations : List Config) : List (Option ConfigDiag) :=
  configurations.map validateConfig

/-- Which of the four return paths of `matchesPattern` a `logic` value
selects: the three `if (logic === ...)` branches, or the final
`return false` fallback. -/
inductive LogicBranch where
  | orBranch
  | andBranch
  | xorBranch
  | fallback
deriving DecidableEq

/-- Branch selection of `matchesPattern` (lines 99–102 of the source). -/
def logicBranch (logic : Option String) : LogicBranch :=
  if logic = some "OR" then LogicBranch.orBranch
  else if logic = some "AND" then LogicBranch.andBranch
  else if logic = some "XOR" then LogicBranch.xorBranch
  else LogicBranch.fallback

/-- The logic combinator of `matchesPattern`: `matches.some(Boolean)`,
`matches.every(Boolean)`, `matches.filter(Boolean).length === 1`, or the
defensive `return false`. -/
def combine (matchResults : List Bool) (logic : Option String) : Bool :=
  match logicBranch logic with
  | LogicBranch.orBranch => matchResults.any id
  | LogicBranch.andBranch => matchResults.all id
  | LogicBranch.xorBranch => (matchResults.filter id).length == 1
  | LogicBranch.fallback => false

/-- `matchesPattern` from the source: compile every pattern, test each
against the string, and combine the boolean results via `logic`. -/
def matchesPattern (string : String) (config : Config) : Bool :=
  let regexPatterns := config.forbiddenPatterns.map parsePattern
  let matchResults := regexPatterns.map fun regex => RegExp.test regex string
  combine matchResults config.logic

/-- One call argument, as far as the rule inspects it: a string `Literal`,
a non-string `Literal`, or any other (non-literal) expression. -/
inductive Arg where
  | strLit (value : String)
  | otherLit
  | nonLiteral
deriving DecidableEq

/-- The filter `arg.type === "Literal" && typeof arg.value === "string"`. -/
def isStringLiteralArg : Arg → Bool
  | Arg.strLit _ => true
  | _ => false

/-- `arg.value` for the arguments surviving the filter (the default is
never reached on filtered arguments). -/
def argStringValue : Arg → String
  | Arg.strLit s => s
  | _ => ""

/-- `messageArgsMap` from the source: the string-literal argument values,
in original order. -/
def messageArgsMap (args : List Arg) : List String :=
  (args.filter isStringLiteralArg).map argStringValue

/-- `messageArguments` from the source: the string-literal values joined
with a single space. -/
def messageArguments (args : List Arg) : String :=
  String.intercalate " " (messageArgsMap args)

/-- The parts of a `CallExpression` node the rule inspects.  The object
and property names are optional because a callee such as `a.b.c(...)` or
`obj[expr](...)` has no `.name` on its object/property (JS `undefined`). -/
structure CallSite where
  calleeIsMemberExpr : Bool
  calleeObjectName : Option String
  calleeMethodName : String
  args : List Arg
deriving DecidableEq

/-- `customLoggerNames` from the source: the union (with repetition) of
every configuration's `customLoggers`, in order. -/
def customLoggerNames (configurations : List Config) : List String :=
  configurations.flatMap fun config => config.customLoggers.getD []

/-- `isConsoleStatement` from the source. -/
def isConsoleStatement (node : CallSite) : Bool :=
  node.calleeIsMemberExpr && node.calleeObjectName == some "console"

/-- `isCustomLoggerStatement` from the source (`includes(undefined)` is
false when the callee object has no name). -/
def isCustomLoggerStatement (configurations : List Config) (node : CallSite) : Bool :=
  node.calleeIsMemberExpr &&
    (match node.calleeObjectName with
     | some n => (customLoggerNames configurations).contains n
     | none => false)

/-- The level-exclusion guard
`config.excludeLevels && config.excludeLevels.includes(logMethod)`. -/
def levelExcluded (config : Config) (logMethod : String) : Bool :=
  match config.excludeLevels with
  | some levels => levels.contains logMethod
  | none => false

/-- `appliesToConsole` from the source: a console call and a configuration
with no `customLoggers` property. -/
def appliesToConsole (isConsole : Bool) (config : Config) : Bool :=
  isConsole && config.customLoggers.isNone

/-- `appliesToCustomLogger` from the source.  Note that the membership
test uses the global `customLoggerNames` union (`names` here), exactly as
in the source — not the configuration's own `customLoggers` list. -/
def appliesToCustomLogger (isCustom : Bool) (names : List String)
    (objName : Option String) (config : Config) : Bool :=
  isCustom && config.customLoggers.isSome &&
    (match objName with
     | some n => names.contains n
     | none => false)

/-- The `for (const index in configurations)` loop: skip level-excluded
configurations, report the current index and stop on the first applicable
configuration whose patterns match, otherwise continue. -/
def findReport (isConsole isCustom : Bool) (names : List String)
    (objName : Option String) (logMethod text : String) :
    List Config → Nat → Option Nat
  | [], _ => none
  | config :: rest, i =>
      if levelExcluded config logMethod then
        findReport isConsole isCustom names objName logMethod text rest (i + 1)
      else if (appliesToConsole isConsole config ||
               appliesToCustomLogger isCustom names objName config) &&
              matchesPattern text config then
        some i
      else
        findReport isConsole isCustom names objName logMethod text rest (i + 1)

/-- The `CallExpression` visitor: classify the callee, extract the literal
text, and run the configuration loop.  The result is the index of the
configuration whose diagnostic is reported (`none` when no diagnostic is
produced); the early `return` after `context.report` means at most one
diagnostic per visit. -/
def handleCallExpression (configurations : List Config) (node : CallSite) : Option Nat :=
  let isConsole := isConsoleStatement node
  let isCustom := isCustomLoggerStatement configurations node
  if !isConsole && !isCustom then none
  else
    findReport isConsole isCustom (customLoggerNames configurations)
      node.calleeObjectName node.calleeMethodName (messageArguments node.args)
      configurations 0

/-- Whether one configuration would trigger a report for the given
classification data: not level-excluded, applicable, and matching. -/
def triggersWith (isConsole isCustom : Bool) (names : List String)
    (objName : Option String) (logMethod text : String) (config : Config) : Bool :=
  !levelExcluded config logMethod &&
    ((appliesToConsole isConsole config ||
      appliesToCustomLogger isCustom names objName config) &&
     matchesPattern text config)

/-- Whether one configuration would trigger a report for a call site. -/
def configTriggers (configurations : List Config) (node : CallSite) (config : Config) : Bool :=
  triggersWith (isConsoleStatement node) (isCustomLoggerStatement configurations node)
    (customLoggerNames configurations) node.calleeObjectName node.calleeMethodName
    (messageArguments node.args) config

/-- Generic first-hit scan over a configuration list, counting from `i`:
the shape of the `CallExpression` loop with the per-configuration decision
abstracted out. -/
def firstTrigIdx (p : Config → Bool) : List Config → Nat → Option Nat
  | [], _ => none
  | config :: rest, i => if p config then some i else firstTrigIdx p rest (i + 1)

/-! ## Spec-side definitions

The following definitions are written from the specification's words, not
from the source; they exist to be compared with the source-side
definitions above. -/

/-- A character with no special meaning in JavaScript regex syntax.  A
pattern made of such characters is a genuinely "plain word" in the sense
of the spec's word branch. -/
def isPlainChar (c : Char) : Bool :=
  c != '\\' && c != '^' && c != '$' && c != '.' && c != '|' && c != '?' &&
  c != '*' && c != '+' && c != '(' && c != ')' && c != '[' && c != ']' &&
  c != '{' && c != '}'

/-- Pointwise case-insensitive equality of two character lists. -/
def ciEqList : List Char → List Char → Bool
  | [], [] => true
  | a :: as, b :: bs => (a.toLower == b.toLower) && ciEqList as bs
  | _, _ => false

/-- Spec reading of the implicit word branch: the pattern occurs somewhere
in the text, compared case-insensitively, with a word boundary on each
side of the occurrence. -/
def occursAsWordCI (pat text : String) : Bool :=
  let p := pat.toList
  let t := text.toList
  (List.range (t.length + 1)).any fun i =>
    boundaryAt t i && (ciEqList ((t.drop i).take p.length) p && boundaryAt t (i + p.length))

/-- Spec reading of the literal-text extraction: the values of the direct
string-literal arguments, in original order. -/
def stringLiteralValues : List Arg → List String
  | [] => []
  | Arg.strLit s :: rest => s :: stringLiteralValues rest
  | _ :: rest => stringLiteralValues rest

/-! ## Helper lemmas -/

lemma char_beq_comm (a b : Char) : (a == b) = (b == a) := by
  rw [Bool.eq_iff_iff]
  simp only [beq_iff_eq]
  exact eq_comm

lemma any_pointwise (l : List α) (f g : α → Bool) (h : ∀ a ∈ l, f a = g a) :
    l.any f = l.any g := by
  induction l with
  | nil => rfl
  | cons a l ih =>
      simp only [List.any_cons, h a (by simp), ih fun x hx => h x (by simp [hx])]

lemma isPlainChar_ne (c : Char) (h : isPlainChar c = true) : c ≠ '\\' ∧ c ≠ '.' := by
  simp only [isPlainChar, Bool.and_eq_true, bne_iff_ne] at h
  exact ⟨h.1.1.1.1.1.1.1.1.1.1.1.1.1, h.1.1.1.1.1.1.1.1.1.1.2⟩

lemma parseRegex_plain_cons (c : Char) (hc : isPlainChar c = true) (l : List Char) :
    parseRegex (c :: l) = Ratom.lit c :: parseRegex l := by
  obtain ⟨h1, h2⟩ := isPlainChar_ne c hc
  cases l with
  | nil => simp [parseRegex, h2]
  | cons b rest => simp [parseRegex, h1, h2]

lemma parseRegex_plain_append (p l : List Char) (hp : ∀ c ∈ p, isPlainChar c = true) :
    parseRegex (p ++ l) = p.map Ratom.lit ++ parseRegex l := by
  induction p with
  | nil => rfl
  | cons c cs ih =>
      rw [List.cons_append, parseRegex_plain_cons c (hp c (by simp)),
        ih fun x hx => hp x (by simp [hx])]
      rfl

lemma parseRegex_word (p : List Char) (hp : ∀ c ∈ p, isPlainChar c = true) :
    parseRegex ('\\' :: 'b' :: (p ++ ['\\', 'b'])) =
      Ratom.wordB :: (p.map Ratom.lit ++ [Ratom.wordB]) := by
  have hbb : parseRegex ['\\', 'b'] = [Ratom.wordB] := by simp [parseRegex]
  rw [show parseRegex ('\\' :: 'b' :: (p ++ ['\\', 'b'])) =
        Ratom.wordB :: parseRegex (p ++ ['\\', 'b']) by simp [parseRegex],
    parseRegex_plain_append p ['\\', 'b'] hp, hbb]

lemma matchFrom_lit_append (dotAll : Bool) (t p : List Char) (rest : List Ratom) :
    ∀ i, matchFrom true dotAll t (p.map Ratom.lit ++ rest) i =
      (ciEqList ((t.drop i).take p.length) p &&
        matchFrom true dotAll t rest (i + p.length)) := by
  induction p with
  | nil =>
      intro i
      simp [ciEqList]
  | cons c cs ih =>
      intro i
      rcases h : t[i]? with _ | d
      · have hdrop : t.drop i = [] :=
          List.drop_eq_nil_of_le (List.getElem?_eq_none_iff.mp h)
        simp [matchFrom, h, hdrop, ciEqList]
      · obtain ⟨hi, hd⟩ := List.getElem?_eq_some.mp h
        have hdrop : t.drop i = d :: t.drop (i + 1) := by
          rw [List.drop_eq_getElem_cons hi, hd]
        have harith : i + (cs.length + 1) = (i + 1) + cs.length := by omega
        simp only [List.map_cons, List.cons_append, List.append_eq, matchFrom, h,
          ih (i + 1), hdrop, List.length_cons, List.take_succ_cons, ciEqList, harith,
          charMatches, if_true, char_beq_comm c.toLower d.toLower, Bool.and_assoc]

lemma RegExp_test_def (r : RegExp) (s : String) :
    RegExp.test r s =
      (List.range (s.toList.length + 1)).any fun i =>
        matchFrom (r.flags.toList.contains 'i') (r.flags.toList.contains 's')
          s.toList (parseRegex r.source.toList) i := rfl

lemma word_test_eq_occurs (pat text : String) (hp : ∀ c ∈ pat.toList, isPlainChar c = true) :
    RegExp.test (RegExp.mk ("\\b" ++ pat ++ "\\b") "i") text = occursAsWordCI pat text := by
  have hsrc : ("\\b" ++ pat ++ "\\b").toList = '\\' :: 'b' :: (pat.toList ++ ['\\', 'b']) := by
    have h1 : ("\\b" ++ pat ++ "\\b").data = ("\\b".data ++ pat.data) ++ "\\b".data := by
      simp [String.data_append]
    have h2 : "\\b".data = ['\\', 'b'] := rfl
    show ("\\b" ++ pat ++ "\\b").data = _
    rw [h1, h2]
    simp [String.toList]
  rw [RegExp_test_def, occursAsWordCI]
  simp only [hsrc, parseRegex_word pat.toList hp]
  have hci : (("i" : String).toList.contains 'i') = true := rfl
  have hs : (("i" : String).toList.contains 's') = false := rfl
  rw [hci, hs]
  refine any_pointwise _ _ _ fun i _ => ?_
  rw [show matchFrom true false text.toList
        (Ratom.wordB :: (pat.toList.map Ratom.lit ++ [Ratom.wordB])) i =
      (boundaryAt text.toList i &&
        matchFrom true false text.toList (pat.toList.map Ratom.lit ++ [Ratom.wordB]) i) from rfl,
    matchFrom_lit_append]
  simp [matchFrom]

lemma isFlagChar_props (c : Char) (h : isFlagChar c = true) :
    isLineTerminator c = false ∧ c ≠ '/' := by
  simp only [isFlagChar, Bool.or_eq_true, beq_iff_eq] at h
  rcases h with (((((((h | h) | h) | h) | h) | h) | h) | h) <;> subst h <;>
    exact ⟨rfl, by decide⟩

lemma splitAtLastSlash_flags (l : List Char) (h : ∀ c ∈ l, isFlagChar c = true) :
    splitAtLastSlash l = none := by
  induction l with
  | nil => rfl
  | cons c rest ih =>
      obtain ⟨hterm, hslash⟩ := isFlagChar_props c (h c (by simp))
      simp [splitAtLastSlash, hterm, ih fun x hx => h x (by simp [hx]), hslash]

lemma splitAtLastSlash_append (body flags : List Char)
    (hf : ∀ c ∈ flags, isFlagChar c = true)
    (hb : ∀ c ∈ body, isLineTerminator c = false) :
    splitAtLastSlash (body ++ '/' :: flags) = some (body, flags) := by
  induction body with
  | nil =>
      have hterm : isLineTerminator '/' = false := rfl
      simp [splitAtLastSlash, hterm, splitAtLastSlash_flags flags hf,
        List.all_eq_true.mpr hf]
  | cons c cs ih =>
      have hterm : isLineTerminator c = false := hb c (by simp)
      simp [splitAtLastSlash, hterm, ih fun x hx => hb x (by simp [hx])]

lemma getMatch_append (body flags : String)
    (hf : ∀ c ∈ flags.toList, isFlagChar c = true)
    (hb : ∀ c ∈ body.toList, isLineTerminator c = false) :
    getMatch ("/" ++ body ++ "/" ++ flags) = some (body, flags) := by
  have hsrc : ("/" ++ body ++ "/" ++ flags).toList =
      '/' :: (body.toList ++ '/' :: flags.toList) := by
    show ("/" ++ body ++ "/" ++ flags).data = _
    have h1 : "/".data = ['/'] := rfl
    simp [String.data_append, h1, String.toList]
  rw [getMatch, hsrc]
  rw [show getMatchAux ('/' :: (body.toList ++ '/' :: flags.toList)) =
        splitAtLastSlash (body.toList ++ '/' :: flags.toList) from rfl,
    splitAtLastSlash_append body.toList flags.toList hf hb]
  rfl

lemma findReport_cons (isConsole isCustom : Bool) (names : List String)
    (objName : Option String) (logMethod text : String) (config : Config)
    (rest : List Config) (i : Nat) :
    findReport isConsole isCustom names objName logMethod text (config :: rest) i =
      if triggersWith isConsole isCustom names objName logMethod text config = true then
        some i
      else findReport isConsole isCustom names objName logMethod text rest (i + 1) := by
  by_cases h1 : levelExcluded config logMethod = true
  · simp [findReport, triggersWith, h1]
  · by_cases h2 : ((appliesToConsole isConsole config ||
        appliesToCustomLogger isCustom names objName config) &&
        matchesPattern text config) = true
    · simp [findReport, triggersWith, h1, h2]
    · simp [findReport, triggersWith, h1, h2]

lemma findReport_eq_firstTrigIdx (isConsole isCustom : Bool) (names : List String)
    (objName : Option String) (logMethod text : String) :
    ∀ (l : List Config) (i : Nat),
      findReport isConsole isCustom names objName logMethod text l i =
        firstTrigIdx (triggersWith isConsole isCustom names objName logMethod text) l i := by
  intro l
  induction l with
  | nil => intro i; rfl
  | cons config rest ih =>
      intro i
      rw [findReport_cons, firstTrigIdx, ih (i + 1)]

lemma firstTrigIdx_some_iff (p : Config → Bool) :
    ∀ (l : List Config) (i k : Nat),
      firstTrigIdx p l i = some k ↔
        ∃ j, (∃ config, l[j]? = some config ∧ p config = true) ∧ k = i + j ∧
          ∀ j' config', j' < j → l[j']? = some config' → p config' = false := by
  intro l
  induction l with
  | nil =>
      intro i k
      simp [firstTrigIdx]
  | cons config rest ih =>
      intro i k
      rw [firstTrigIdx]
      by_cases htrig : p config = true
      · rw [if_pos htrig]
        constructor
        · intro h
          injection h with h
          exact ⟨0, ⟨config, by simp, htrig⟩, by omega, fun j' c' hj' _ => absurd hj' (by omega)⟩
        · rintro ⟨j, ⟨config', hget, _⟩, hk, hmin⟩
          cases j with
          | zero => simp [hk]
          | succ j =>
              exact absurd htrig (by simp [hmin 0 config (by omega) (by simp)])
      · have htrigf : p config = false := by simpa using htrig
        rw [if_neg htrig, ih (i + 1) k]
        constructor
        · rintro ⟨j, hc, hk, hmin⟩
          refine ⟨j + 1, by simpa using hc, by omega, fun j' config' hj' hget => ?_⟩
          cases j' with
          | zero =>
              rw [List.getElem?_cons_zero] at hget
              injection hget with hget
              exact hget ▸ htrigf
          | succ j'' =>
              exact hmin j'' config' (by omega) (by simpa using hget)
        · rintro ⟨j, hc, hk, hmin⟩
          cases j with
          | zero =>
              obtain ⟨config', hget, htrig'⟩ := hc
              rw [List.getElem?_cons_zero] at hget
              injection hget with hget
              exact absurd (hget ▸ htrig') (by simp [htrigf])
          | succ j =>
              exact ⟨j, by simpa using hc, by omega,
                fun j' c' hj' hget => hmin (j' + 1) c' (by omega) (by simpa using hget)⟩

lemma firstTrigIdx_isSome (p : Config → Bool) :
    ∀ (l : List Config) (i j : Nat) (config : Config),
      l[j]? = some config → p config = true → (firstTrigIdx p l i).isSome = true := by
  intro l
  induction l with
  | nil =>
      intro i j config hget
      simp at hget
  | cons c rest ih =>
      intro i j config hget htrig
      rw [firstTrigIdx]
      by_cases hc : p c = true
      · rw [if_pos hc]; rfl
      · rw [if_neg hc]
        cases j with
        | zero =>
            rw [List.getElem?_cons_zero] at hget
            injection hget with hget
            exact absurd (hget ▸ htrig) hc
        | succ j =>
            exact ih (i + 1) j config (by simpa using hget) htrig

lemma triggersWith_gate (names : List String) (objName : Option String)
    (logMethod text : String) (config : Config) :
    triggersWith false false names objName logMethod text config = false := by
  simp [triggersWith, appliesToConsole, appliesToCustomLogger]

lemma handle_some_iff (configurations : List Config) (node : CallSite) (i : Nat) :
    handleCallExpression configurations node = some i ↔
      (∃ config, configurations[i]? = some config ∧
        configTriggers configurations node config = true) ∧
      ∀ j config, j < i → configurations[j]? = some config →
        configTriggers configurations node config = false := by
  have hfr : findReport (isConsoleStatement node) (isCustomLoggerStatement configurations node)
      (customLoggerNames configurations) node.calleeObjectName node.calleeMethodName
      (messageArguments node.args) configurations 0 =
      firstTrigIdx (configTriggers configurations node) configurations 0 :=
    findReport_eq_firstTrigIdx _ _ _ _ _ _ configurations 0
  by_cases hgate :
      (!isConsoleStatement node && !isCustomLoggerStatement configurations node) = true
  · have h1 : handleCallExpression configurations node = none := by
      simp only [handleCallExpression]
      rw [if_pos hgate]
    obtain ⟨hc, hcu⟩ : isConsoleStatement node = false ∧
        isCustomLoggerStatement configurations node = false := by
      simpa [Bool.and_eq_true, Bool.not_eq_true'] using hgate
    have htrigf : ∀ config, configTriggers configurations node config = false := by
      intro config
      rw [configTriggers, hc, hcu]
      exact triggersWith_gate _ _ _ _ _
    rw [h1]
    constructor
    · intro h; cases h
    · rintro ⟨⟨config, _, htrig⟩, _⟩
      rw [htrigf config] at htrig
      cases htrig
  · have h1 : handleCallExpression configurations node =
        firstTrigIdx (configTriggers configurations node) configurations 0 := by
      simp only [handleCallExpression]
      rw [if_neg hgate, hfr]
    rw [h1, firstTrigIdx_some_iff]
    constructor
    · rintro ⟨j, hc, hk, hmin⟩
      have hij : i = j := by omega
      subst hij
      exact ⟨hc, hmin⟩
    · rintro ⟨hc, hmin⟩
      exact ⟨i, hc, by omega, hmin⟩

lemma matchesPattern_of_logic_none (text : String) (config : Config)
    (h : config.logic = none) : matchesPattern text config = false := by
  simp [matchesPattern, combine, logicBranch, h]

lemma matchesPattern_nil_and (text : String) (config : Config)
    (hp : config.forbiddenPatterns = []) (hl : config.logic = some "AND") :
    matchesPattern text config = true := by
  simp only [matchesPattern, hp, hl, List.map_nil]
  rfl

lemma messageArgsMap_eq_stringLiteralValues (args : List Arg) :
    messageArgsMap args = stringLiteralValues args := by
  induction args with
  | nil => rfl
  | cons a rest ih =>
      cases a with
      | strLit s =>
          simp [messageArgsMap, stringLiteralValues, isStringLiteralArg, argStringValue,
            List.filter_cons, ← ih]
      | otherLit =>
          simp [messageArgsMap, stringLiteralValues, isStringLiteralArg, List.filter_cons, ← ih]
      | nonLiteral =>
          simp [messageArgsMap, stringLiteralValues, isStringLiteralArg, List.filter_cons, ← ih]

/-! ## Claim theorems -/

/-- C5: `validateConfig` reports `missingLogic` exactly when there is more
than one pattern and no `logic`, reports `unnecessaryLogic` exactly when
there is exactly one pattern and a `logic`, reports nothing for one
pattern without `logic`; it yields at most one diagnostic per
configuration (its result is a single `Option`), and the `Program()` pass
validates every configuration independently, without halting. -/
theorem c5_validator_characterization (config : Config) (configurations : List Config) :
    (validateConfig config = some ConfigDiag.missingLogic ↔
      1 < config.forbiddenPatterns.length ∧ config.logic = none) ∧
    (validateConfig config = some ConfigDiag.unnecessaryLogic ↔
      config.forbiddenPatterns.length = 1 ∧ config.logic ≠ none) ∧
    (config.forbiddenPatterns.length = 1 ∧ config.logic = none →
      validateConfig config = none) ∧
    (validationDiags configurations).length = configurations.length ∧
    ∀ i : Nat, (validationDiags configurations)[i]? = (configurations[i]?).map validateConfig := by
  refine ⟨?_, ?_, ?_, by simp [validationDiags], by simp [validationDiags]⟩
  · rw [validateConfig]
    split_ifs with h1 h2 <;> simp_all
  · rw [validateConfig]
    split_ifs with h1 h2 <;> simp_all
  · rintro ⟨hlen, hnone⟩
    rw [validateConfig]
    split_ifs with h1 h2 <;> simp_all

/-- C8: the logic combinator of `matchesPattern` implements OR as
"at least one result true", AND as "all results true", and XOR as
"exactly one result true" (exact-one-true, not parity). -/
theorem c8_logic_combinators (results : List Bool) :
    (combine results (some "OR") = true ↔ ∃ b ∈ results, b = true) ∧
    (combine results (some "AND") = true ↔ ∀ b ∈ results, b = true) ∧
    (combine results (some "XOR") = true ↔ results.count true = 1) := by
  refine ⟨?_, ?_, ?_⟩
  · rw [show combine results (some "OR") = results.any id from rfl]
    simp
  · rw [show combine results (some "AND") = results.all id from rfl]
    simp
  · rw [show combine results (some "XOR") = ((results.filter id).length == 1) from rfl]
    have hfil : results.filter (· == true) = results.filter id :=
      List.filter_congr fun b _ => by cases b <;> rfl
    rw [List.count_eq_countP, List.countP_eq_length_filter, hfil]
    simp

/-- C3: a configuration whose `logic` is absent makes `matchesPattern`
return `false` (through the defensive fallback) on every text, and hence
the produced diagnostic, if any, never references such a configuration. -/
theorem c3_absent_logic_never_reports :
    (∀ (config : Config) (text : String),
      config.logic = none → matchesPattern text config = false) ∧
    ∀ (configurations : List Config) (node : CallSite) (i : Nat) (config : Config),
      handleCallExpression configurations node = some i →
      configurations[i]? = some config → config.logic ≠ none := by
  refine ⟨fun config text h => matchesPattern_of_logic_none text config h, ?_⟩
  intro configurations node i config hhandle hget hnone
  obtain ⟨⟨config', hget', htrig⟩, _⟩ := (handle_some_iff configurations node i).mp hhandle
  rw [hget] at hget'
  injection hget' with hget'
  subst hget'
  rw [configTriggers] at htrig
  simp [triggersWith,
    matchesPattern_of_logic_none (messageArguments node.args) config hnone] at htrig

/-- C4: at most one diagnostic is produced per call-site visit, and it is
produced exactly at the first (lowest-index) configuration that is not
level-excluded, applies to the call site, and whose combined pattern
result is true; no later configuration is reached, even if it would also
match. -/
theorem c4_first_match_wins (configurations : List Config) (node : CallSite) (i : Nat) :
    handleCallExpression configurations node = some i ↔
      (∃ config, configurations[i]? = some config ∧
        configTriggers configurations node config = true) ∧
      ∀ j config, j < i → configurations[j]? = some config →
        configTriggers configurations node config = false :=
  handle_some_iff configurations node i

/-- C10: a configuration with an empty `forbiddenPatterns` list and logic
`"AND"` makes `matchesPattern` vacuously true on every text, passes the
validator silently, and — when present, applicable and not
level-excluded — guarantees that the call-site visit produces a
diagnostic. -/
theorem c10_empty_patterns_and :
    (∀ (text : String) (config : Config),
      config.forbiddenPatterns = [] → config.logic = some "AND" →
        matchesPattern text config = true) ∧
    (∀ config : Config, config.forbiddenPatterns = [] → validateConfig config = none) ∧
    ∀ (configurations : List Config) (node : CallSite) (k : Nat) (config : Config),
      configurations[k]? = some config →
      config.forbiddenPatterns = [] → config.logic = some "AND" →
      levelExcluded config node.calleeMethodName = false →
      (appliesToConsole (isConsoleStatement node) config ||
        appliesToCustomLogger (isCustomLoggerStatement configurations node)
          (customLoggerNames configurations) node.calleeObjectName config) = true →
      (handleCallExpression configurations node).isSome = true := by
  refine ⟨fun text config hp hl => matchesPattern_nil_and text config hp hl, ?_, ?_⟩
  · intro config hp
    simp [validateConfig, hp]
  · intro configurations node k config hget hp hl hexcl happ
    have htrig : configTriggers configurations node config = true := by
      rw [configTriggers, triggersWith]
      simp [hexcl, happ, matchesPattern_nil_and _ config hp hl]
    have hgate : (!isConsoleStatement node &&
        !isCustomLoggerStatement configurations node) = false := by
      have happ' : appliesToConsole (isConsoleStatement node) config = true ∨
          appliesToCustomLogger (isCustomLoggerStatement configurations node)
            (customLoggerNames configurations) node.calleeObjectName config = true := by
        simpa using happ
      rcases happ' with hA | hB
      · have hc : isConsoleStatement node = true := by
          simp only [appliesToConsole, Bool.and_eq_true] at hA
          exact hA.1
        simp [hc]
      · have hcu : isCustomLoggerStatement configurations node = true := by
          simp only [appliesToCustomLogger, Bool.and_eq_true] at hB
          exact hB.1.1
        simp [hcu]
    have h1 : handleCallExpression configurations node =
        firstTrigIdx (configTriggers configurations node) configurations 0 := by
      simp only [handleCallExpression]
      rw [if_neg (by simp [hgate])]
      exact findReport_eq_firstTrigIdx _ _ _ _ _ _ configurations 0
    rw [h1]
    exact firstTrigIdx_isSome _ configurations 0 k config hget htrig

/-- C9: the matched text is exactly the call's direct string-literal
argument values, in original order, joined with a single space; a
non-string-literal argument contributes nothing wherever it sits; when no
argument is a string literal the text is empty; and the visitor's result
depends on the arguments only through this extracted text. -/
theorem c9_literal_extraction :
    (∀ args : List Arg,
      messageArguments args = String.intercalate " " (stringLiteralValues args)) ∧
    (∀ (pre post : List Arg) (a : Arg), isStringLiteralArg a = false →
      messageArguments (pre ++ a :: post) = messageArguments (pre ++ post)) ∧
    (∀ args : List Arg, args.all (fun a => !isStringLiteralArg a) = true →
      messageArguments args = "") ∧
    ∀ (configurations : List Config) (b : Bool) (objName : Option String)
      (m : String) (args args' : List Arg),
      messageArguments args = messageArguments args' →
      handleCallExpression configurations (CallSite.mk b objName m args) =
        handleCallExpression configurations (CallSite.mk b objName m args') := by
  refine ⟨?_, ?_, ?_, ?_⟩
  · intro args
    rw [messageArguments, messageArgsMap_eq_stringLiteralValues]
  · intro pre post a ha
    rw [messageArguments, messageArguments, messageArgsMap, messageArgsMap,
      List.filter_append, List.filter_append, List.filter_cons_of_neg (by simp [ha])]
  · intro args h
    have hfil : args.filter isStringLiteralArg = [] := by
      rw [List.filter_eq_nil_iff]
      intro a ha
      have := List.all_eq_true.mp h a ha
      simp_all
    rw [messageArguments, messageArgsMap, hfil]
    rfl
  · intro configurations b objName m args args' h
    simp only [handleCallExpression]
    rw [show isConsoleStatement (CallSite.mk b objName m args) =
          isConsoleStatement (CallSite.mk b objName m args') from rfl,
      show isCustomLoggerStatement configurations (CallSite.mk b objName m args) =
          isCustomLoggerStatement configurations (CallSite.mk b objName m args') from rfl, h]

/-- C6 (amended): for a pattern without the `/body/flags` shape whose
characters all lack special regex meaning, the compiled matcher tests true
on a text exactly when the pattern occurs in the text as a complete word
(word boundaries on both sides), case-insensitively. -/
theorem c6_plain_word_semantics (pat text : String)
    (hshape : getMatch pat = none)
    (hplain : pat.toList.all isPlainChar = true) :
    RegExp.test (parsePattern pat) text = occursAsWordCI pat text := by
  have hw : parsePattern pat = RegExp.mk ("\\b" ++ pat ++ "\\b") "i" := by
    simp only [parsePattern, hshape]
  rw [hw]
  exact word_test_eq_occurs pat text (List.all_eq_true.mp hplain)

/-- C6 (counterexample to the claim as stated): `"a.c"` is not
`/body/flags`-shaped, yet its compiled matcher accepts `"abc"`, where the
pattern does not occur at all — the `.` keeps its wildcard meaning inside
the word-boundary wrapper. -/
theorem c6_counterexample :
    getMatch "a.c" = none ∧
    RegExp.test (parsePattern "a.c") "abc" = true ∧
    occursAsWordCI "a.c" "abc" = false := by
  refine ⟨by decide, by decide, by decide⟩

/-- C7 (amended): a pattern of the shape `/body/flags` with flag
characters from `{g,i,m,u,y,d,s,v}` and no line terminator in the body
compiles to exactly the regular expression built from `body` and `flags`
verbatim. -/
theorem c7_regex_shape_verbatim (body flags : String)
    (hf : flags.toList.all isFlagChar = true)
    (hb : body.toList.all (fun c => !isLineTerminator c) = true) :
    parsePattern ("/" ++ body ++ "/" ++ flags) = RegExp.mk body flags := by
  have hb' : ∀ c ∈ body.toList, isLineTerminator c = false := by
    intro c hc
    have hcb := List.all_eq_true.mp hb c hc
    simpa using hcb
  simp only [parsePattern, getMatch_append body flags (List.all_eq_true.mp hf) hb']

/-- C7 (counterexample to the claim as stated): `"/a\nb/i"` decomposes as
`/body/flags` with `body = "a\nb"` and `flags = "i"`, but the shape regex
does not match it (`.` does not cross the newline), so the compiler
produces the implicit word matcher, not the regex `a\nb` with flag `i`. -/
theorem c7_counterexample :
    ("/a\nb/i" = "/" ++ "a\nb" ++ "/" ++ "i") ∧
    ("i".toList.all isFlagChar = true) ∧
    parsePattern "/a\nb/i" ≠ RegExp.mk "a\nb" "i" ∧
    parsePattern "/a\nb/i" = RegExp.mk "\\b/a\nb/i\\b" "i" := by
  refine ⟨by decide, by decide, by decide, by decide⟩

/-- C1: contrary to the claim, a configuration that declares only *other*
logger names can produce the diagnostic for a custom-logger call site: the
applicability check consults the union of all configurations'
`customLoggers` instead of the configuration's own list.  For
`cheese.log("debug")` under a `cheese` configuration (index 0, patterns
not matching) and an `other` configuration (index 1, patterns matching),
the diagnostic reported is index 1, whose `customLoggers` does not contain
`"cheese"`.  Both configurations pass the validator. -/
theorem c1_code_behavior :
    validateConfig (Config.mk ["x", "y"] (some "AND") none (some ["cheese"])) = none ∧
    validateConfig (Config.mk ["debug", "trace"] (some "OR") none (some ["other"])) = none ∧
    ¬ ("cheese" ∈ (["other"] : List String)) ∧
    handleCallExpression
      [Config.mk ["x", "y"] (some "AND") none (some ["cheese"]),
       Config.mk ["debug", "trace"] (some "OR") none (some ["other"])]
      (CallSite.mk true (some "cheese") "log" [Arg.strLit "debug"]) = some 1 := by
  refine ⟨by decide, by decide, by decide, by decide⟩

/-- C2: contrary to the claim, a validator-accepted configuration with
exactly one pattern and no `logic` *does* reach the undefined-logic
fallback: `logicBranch` selects the fallback, `matchesPattern` is false
although the single pattern itself matches the text, and the visit of
`console.log("debug", "some text...")` (the README's Example #1) produces
no diagnostic. -/
theorem c2_code_behavior :
    validateConfig (Config.mk ["/debug/i"] none none none) = none ∧
    ((Config.mk ["/debug/i"] none none none).logic.isSome = true ↔
      1 < (Config.mk ["/debug/i"] none none none).forbiddenPatterns.length) ∧
    logicBranch (Config.mk ["/debug/i"] none none none).logic = LogicBranch.fallback ∧
    RegExp.test (parsePattern "/debug/i") "debug some text..." = true ∧
    matchesPattern "debug some text..." (Config.mk ["/debug/i"] none none none) = false ∧
    handleCallExpression [Config.mk ["/debug/i"] none none none]
      (CallSite.mk true (some "console") "log"
        [Arg.strLit "debug", Arg.strLit "some text..."]) = none := by
  refine ⟨by decide, by decide, by decide, by decide, by decide, by decide⟩

/-! ## Witnesses -/

/-- C3 witness: instances of both parts at concrete inputs. -/
theorem c3_witness :
    matchesPattern "debug" (Config.mk ["debug"] none none none) = false ∧
    (Config.mk ["debug", "trace"] (some "OR") none none).logic ≠ none := by
  constructor
  · exact c3_absent_logic_never_reports.1 (Config.mk ["debug"] none none none) "debug" rfl
  · exact c3_absent_logic_never_reports.2
      [Config.mk ["debug", "trace"] (some "OR") none none]
      (CallSite.mk true (some "console") "log" [Arg.strLit "debug"]) 0
      (Config.mk ["debug", "trace"] (some "OR") none none) (by decide) (by decide)

/-- C4 witness: with two configurations that both match
`console.log("debug some text...")`, the visitor reports index 0, and the
characterization instantiates there. -/
theorem c4_witness :
    (∃ config,
      ([Config.mk ["debug", "trace"] (some "OR") none none,
        Config.mk ["debug", "text"] (some "OR") none none] : List Config)[0]? = some config ∧
      configTriggers
        [Config.mk ["debug", "trace"] (some "OR") none none,
         Config.mk ["debug", "text"] (some "OR") none none]
        (CallSite.mk true (some "console") "log"
          [Arg.strLit "debug", Arg.strLit "some text..."]) config = true) ∧
    ∀ j config, j < 0 →
      ([Config.mk ["debug", "trace"] (some "OR") none none,
        Config.mk ["debug", "text"] (some "OR") none none] : List Config)[j]? = some config →
      configTriggers
        [Config.mk ["debug", "trace"] (some "OR") none none,
         Config.mk ["debug", "text"] (some "OR") none none]
        (CallSite.mk true (some "console") "log"
          [Arg.strLit "debug", Arg.strLit "some text..."]) config = false :=
  (c4_first_match_wins
    [Config.mk ["debug", "trace"] (some "OR") none none,
     Config.mk ["debug", "text"] (some "OR") none none]
    (CallSite.mk true (some "console") "log"
      [Arg.strLit "debug", Arg.strLit "some text..."]) 0).mp (by decide)

/-- C5 witness: a single-pattern configuration without `logic` yields no
validator diagnostic. -/
theorem c5_witness :
    validateConfig (Config.mk ["debug"] none none none) = none :=
  (c5_validator_characterization (Config.mk ["debug"] none none none) []).2.2.1 ⟨rfl, rfl⟩

/-- C6 witness: the amended equivalence at pattern `"debug"`, which
matches `"DEBUG some text"` as a whole word but not `"debugging"`. -/
theorem c6_witness :
    (getMatch "debug" = none ∧ "debug".toList.all isPlainChar = true) ∧
    RegExp.test (parsePattern "debug") "DEBUG some text" =
      occursAsWordCI "debug" "DEBUG some text" ∧
    occursAsWordCI "debug" "DEBUG some text" = true ∧
    RegExp.test (parsePattern "debug") "debugging" = false := by
  refine ⟨⟨by decide, by decide⟩,
    c6_plain_word_semantics "debug" "DEBUG some text" (by decide) (by decide),
    by decide, by decide⟩

/-- C7 witness: `"/debug/i"` compiles to the regex `debug` with flag `i`,
which matches `"DEBUG"` and not `"no match here"`. -/
theorem c7_witness :
    parsePattern "/debug/i" = RegExp.mk "debug" "i" ∧
    RegExp.test (parsePattern "/debug/i") "DEBUG" = true ∧
    RegExp.test (parsePattern "/debug/i") "no match here" = false := by
  refine ⟨?_, by decide, by decide⟩
  have h := c7_regex_shape_verbatim "debug" "i" (by decide) (by decide)
  have e : ("/" ++ "debug" ++ "/" ++ "i" : String) = "/debug/i" := rfl
  rw [e] at h
  exact h

/-- C8 witness: the spec's examples, `[true, false]` is exactly-one-true
and `[true, true]` is not. -/
theorem c8_witness :
    combine [true, false] (some "XOR") = true ∧
    combine [true, true] (some "XOR") = false := by
  refine ⟨(c8_logic_combinators [true, false]).2.2.mpr (by decide), by decide⟩

/-- C9 witness: a non-literal argument between two string literals
contributes nothing, and the two literals join with a single space. -/
theorem c9_witness :
    messageArguments [Arg.strLit "a", Arg.nonLiteral, Arg.strLit "debug"] =
      messageArguments [Arg.strLit "a", Arg.strLit "debug"] ∧
    messageArguments [Arg.strLit "a", Arg.strLit "debug"] = "a debug" := by
  refine ⟨c9_literal_extraction.2.1 [Arg.strLit "a"] [Arg.strLit "debug"]
    Arg.nonLiteral (by decide), by decide⟩

/-- C10 witness: one empty-pattern AND configuration forces a diagnostic
for a plain `console.log("anything")`. -/
theorem c10_witness :
    (handleCallExpression [Config.mk [] (some "AND") none none]
      (CallSite.mk true (some "console") "log" [Arg.strLit "anything"])).isSome = true :=
  c10_empty_patterns_and.2.2 [Config.mk [] (some "AND") none none]
    (CallSite.mk true (some "console") "log" [Arg.strLit "anything"]) 0
    (Config.mk [] (some "AND") none none) (by decide) (by decide) (by decide)
    (by decide) (by decide)

end ForbidLogStrings
